import Mathlib

/-!
Verification of the blog content pipeline of the kana-dojo repository.

The pipeline lives in `lib/getBlogPosts.ts` (post loading, parsing, sorting) and
`lib/getBlogPost.ts` (single-post retrieval with locale fallback).  Pure data is
embedded directly; the filesystem is a snapshot record of query functions; paths
are lists of segments (`path.join` appends a segment); JavaScript's
`Array.prototype.sort` with a comparator is embedded as a stable insertion sort,
which the ECMAScript specification makes observationally exact for consistent
comparators; `new Date(s).getTime()` is embedded for the ISO `YYYY-MM-DD`
date-only strings used by the content frontmatter, with `none` standing for an
invalid date (`NaN` time value).
-/

namespace KanaDojo

/-! ### Data model -/

/-- The empty string, named so it can be passed as an argument. -/
def emptyString : String := ""

/-- The recognized content extension, `.mdx`. -/
def mdxExt : String := ".mdx"

/-- Locales, from `VALID_LOCALES` in `types/blog`: a small fixed enumerated set
with `en` designated as the fallback default. -/
inductive Locale where
  | en
  | es
  | ja
  deriving DecidableEq

/-- Directory name of a locale under the content root. -/
def Locale.dirName : Locale → String
  | .en => "en"
  | .es => "es"
  | .ja => "ja"

/-- The designated fallback locale (English). -/
def defaultLocale : Locale := Locale.en

/-- Post categories, from `VALID_CATEGORIES` in `types/blog`: a fixed enumerated
set (the tests exercise `hiragana`). -/
inductive Category where
  | hiragana
  | katakana
  | kanji
  | grammar
  | culture
  deriving DecidableEq

/-- Difficulty levels, the optional enumerated `difficulty` frontmatter value. -/
inductive Difficulty where
  | beginner
  | intermediate
  | advanced
  deriving DecidableEq

/-- Blog post metadata, the `BlogPostMeta` record of `types/blog`. -/
structure BlogPostMeta where
  title : String
  description : String
  slug : String
  publishedAt : String
  updatedAt : Option String
  author : String
  category : Category
  tags : List String
  featuredImage : Option String
  readingTime : Nat
  difficulty : Option Difficulty
  relatedPosts : Option (List String)
  locale : Locale
  deriving DecidableEq

/-! ### The date model: `new Date(s).getTime()` on ISO date-only strings -/

/-- Numeric value of a decimal digit character. -/
def digitVal (c : Char) : Nat := c.toNat - 48

/-- Gregorian leap-year test. -/
def isLeapYear (y : Nat) : Bool :=
  (y % 4 == 0 && y % 100 != 0) || y % 400 == 0

/-- Number of days in month `m` of year `y`. -/
def daysInMonth (y m : Nat) : Nat :=
  if m == 2 then (if isLeapYear y then 29 else 28)
  else if m == 4 || m == 6 || m == 9 || m == 11 then 30
  else 31

/-- Days from the Unix epoch 1970-01-01 to `y`-`m`-`d` (proleptic Gregorian,
years 0 to 9999).  Computed with the standard civil-from-date era arithmetic,
shifted by 400 years so all intermediate values are natural numbers; the shift
is removed at the end (one 400-year Gregorian cycle is 146097 days, and
1970-01-01 is 719468 days after 0000-03-01). -/
def daysFromCivil (y m d : Nat) : Int :=
  let yShifted := y + 400
  let yAdj := if m ≤ 2 then yShifted - 1 else yShifted
  let era := yAdj / 400
  let yoe := yAdj % 400
  let mp := (m + 9) % 12
  let doy := (153 * mp + 2) / 5 + (d - 1)
  let doe := yoe * 365 + yoe / 4 - yoe / 100 + doy
  ((era * 146097 + doe : Nat) : Int) - 146097 - 719468

/-- Milliseconds in a day. -/
def msPerDay : Int := 86400000

/-- Embedding of `new Date(s).getTime()` for the frontmatter date strings,
restricted to the ISO 8601 date-only form `YYYY-MM-DD` that the ECMAScript
Date-Time String Format defines (out-of-range months or days yield an invalid
date).  `none` stands for `NaN`, the time value of an invalid date; `some t` is
the time value in milliseconds since the Unix epoch (UTC midnight). -/
def jsDateGetTime (s : String) : Option Int :=
  match s.data with
  | [y1, y2, y3, y4, s1, m1, m2, s2, d1, d2] =>
    if s1 == '-' && s2 == '-' &&
        y1.isDigit && y2.isDigit && y3.isDigit && y4.isDigit &&
        m1.isDigit && m2.isDigit && d1.isDigit && d2.isDigit then
      let y := ((digitVal y1 * 10 + digitVal y2) * 10 + digitVal y3) * 10 + digitVal y4
      let m := digitVal m1 * 10 + digitVal m2
      let d := digitVal d1 * 10 + digitVal d2
      if 1 ≤ m && m ≤ 12 && 1 ≤ d && d ≤ daysInMonth y m then
        some (daysFromCivil y m d * msPerDay)
      else
        none
    else
      none
  | _ => none

/-! ### The sorter: `sortPostsByDate` -/

/-- The comparator closure passed to `sort` in `sortPostsByDate`:
`(a, b) => new Date(b.publishedAt).getTime() - new Date(a.publishedAt).getTime()`.
When either time value is `NaN` the subtraction is `NaN`, and the ECMAScript
sort machinery (`CompareArrayElements`) converts a `NaN` comparator result to
`+0`; the catch-all branch realizes that conversion. -/
def postCompare (a b : BlogPostMeta) : Int :=
  match jsDateGetTime a.publishedAt, jsDateGetTime b.publishedAt with
  | some dateA, some dateB => dateB - dateA
  | _, _ => 0

/-- The "keeps `a` at or before `b`" relation induced by the comparator: a
comparator value that is not positive leaves the pair in order. -/
def postLE (a b : BlogPostMeta) : Prop := postCompare a b ≤ 0

instance : DecidableRel postLE := fun a b => Int.decLe (postCompare a b) 0

/-- Embedding of the call `sortPostsByDate(posts)` together with the caller's
view of the argument array after the call: `[...posts]` allocates a fresh copy,
`.sort` reorders only that copy, so the first component (the argument array
after the call) still holds the original contents and the second component is
the returned array.  `Array.prototype.sort` is stable (ECMAScript 2019+), so for
a consistent comparator its result is exactly the stable insertion sort. -/
def sortPostsByDateRun (posts : List BlogPostMeta) :
    List BlogPostMeta × List BlogPostMeta :=
  let copy := posts ++ []
  (posts, List.insertionSort postLE copy)

/-- Embedding of `sortPostsByDate` from `lib/getBlogPosts.ts`: the value the
call returns. -/
def sortPostsByDate (posts : List BlogPostMeta) : List BlogPostMeta :=
  (sortPostsByDateRun posts).2

/-- Whether a record's `publishedAt` parses to exactly the date value `d`. -/
def sameDateAs (d : Int) (p : BlogPostMeta) : Bool :=
  decide (jsDateGetTime p.publishedAt = some d)

/-! ### Frontmatter, validation and reading time -/

/-- Parsed frontmatter of a content file: the loosely-typed key-value record
gray-matter returns, with absent keys as `none`. -/
structure Frontmatter where
  title : Option String
  description : Option String
  publishedAt : Option String
  updatedAt : Option String
  author : Option String
  category : Option Category
  tags : Option (List String)
  featuredImage : Option String
  difficulty : Option Difficulty
  relatedPosts : Option (List String)
  deriving DecidableEq

/-- Result record of frontmatter validation. -/
structure ValidationResult where
  success : Bool
  missingFields : List String
  deriving DecidableEq

/-- A required string field is present when it is neither absent nor empty. -/
def strPresent : Option String → Bool
  | none => false
  | some s => !(s == emptyString)

/-- A required list field is present when it is neither absent nor empty. -/
def listPresent : Option (List String) → Bool
  | none => false
  | some l => !l.isEmpty

/-- Modelled from the spec: `validateFrontmatter` (its source file
`lib/validateFrontmatter.ts` is not under `src/`).  Per spec section 4.1 it
checks the required fields title, description, publishedAt, author, category
and tags, flagging each that is absent or empty, and reports success when no
required field is missing; it validates nothing beyond presence. -/
def validateFrontmatter (fm : Frontmatter) : ValidationResult :=
  let missing :=
    (if strPresent fm.title then [] else ["title"]) ++
    (if strPresent fm.description then [] else ["description"]) ++
    (if strPresent fm.publishedAt then [] else ["publishedAt"]) ++
    (if strPresent fm.author then [] else ["author"]) ++
    (if fm.category.isSome then [] else ["category"]) ++
    (if listPresent fm.tags then [] else ["tags"])
  { success := missing.isEmpty, missingFields := missing }

/-- The fixed words-per-minute reading speed of the estimator. -/
def wordsPerMinute : Nat := 200

/-- Counts the maximal whitespace-separated words of a character sequence;
the flag records whether the previous character was inside a word. -/
def countWordsAux : List Char → Bool → Nat
  | [], _ => 0
  | c :: cs, inWord =>
    if c.isWhitespace then countWordsAux cs false
    else (if inWord then 0 else 1) + countWordsAux cs true

/-- Modelled from the spec: `calculateReadingTime` (its source file
`lib/calculateReadingTime.ts` is not under `src/`).  Per spec section 4.2 it
splits the raw body on whitespace to count words, divides by a fixed
words-per-minute reading speed, rounds up to the nearest whole minute, with a
floor of one minute. -/
def calculateReadingTime (content : String) : Nat :=
  max 1 ((countWordsAux content.data false + wordsPerMinute - 1) / wordsPerMinute)

/-! ### The filesystem snapshot and the post loader -/

/-- Embedding of `String.prototype.endsWith`: suffix test on the character
sequences. -/
def strEndsWith (s ext : String) : Bool := ext.data.isSuffixOf s.data

/-- Paths are modelled as lists of segments relative to the snapshot root
(`process.cwd()`); `path.join` appends segments. -/
def contentBasePath : List String := ["features", "Blog", "content", "posts"]

/-- Embedding of `getPostsDirectory`: the posts directory for a locale. -/
def getPostsDirectory (locale : Locale) : List String :=
  contentBasePath ++ [locale.dirName]

/-- Embedding of `path.basename(filePath, ext)` over segment paths: the last
segment, with `ext` removed when the segment ends with `ext` and is not `ext`
itself (Node keeps the name whole when it equals the extension:
`path.basename` of a file named exactly like the extension removes nothing). -/
def basenameExt (p : List String) (ext : String) : String :=
  let name := (p.getLast?).getD emptyString
  if strEndsWith name ext && !(name == ext) then
    String.mk (name.data.take (name.data.length - ext.data.length))
  else
    name

/-- The name of an `.mdx` file with its extension removed. -/
def removeMdxSuffix (file : String) : String :=
  String.mk (file.data.take (file.data.length - mdxExt.data.length))

/-- A snapshot of the filesystem at call time.  `dirExists` is `fs.existsSync`
on a directory path, `dirFiles` is `fs.readdirSync` (entry names, which contain
no separators), `fileExists` is `fs.existsSync` on a file path, and `readFile`
combines `fs.readFileSync` with gray-matter parsing: `none` stands for a thrown
error (unreadable file or unparseable frontmatter), `some (fm, body)` for the
parsed frontmatter record and body text. -/
structure FileSystem where
  dirExists : List String → Bool
  dirFiles : List String → List String
  fileExists : List String → Bool
  readFile : List String → Option (Frontmatter × String)

/-- Embedding of `parsePostFile` from `lib/getBlogPosts.ts`: reads the file and
parses frontmatter (a thrown error is caught, logged, and turned into `null`),
validates the frontmatter (failure is logged and yields `null`), derives the
slug from the filename by removing the `.mdx` extension, computes the reading
time from the body, and assembles the record.  The `as`-casts of the source
become `Option.getD` with defaults that validation success makes unreachable;
the diagnostic logging is a side effect outside the model. -/
def parsePostFile (fs : FileSystem) (filePath : List String) (locale : Locale) :
    Option BlogPostMeta :=
  match fs.readFile filePath with
  | none => none
  | some (frontmatter, content) =>
    if (validateFrontmatter frontmatter).success then
      some {
        title := frontmatter.title.getD emptyString
        description := frontmatter.description.getD emptyString
        slug := basenameExt filePath mdxExt
        publishedAt := frontmatter.publishedAt.getD emptyString
        updatedAt := frontmatter.updatedAt
        author := frontmatter.author.getD emptyString
        category := frontmatter.category.getD Category.hiragana
        tags := frontmatter.tags.getD []
        featuredImage := frontmatter.featuredImage
        readingTime := calculateReadingTime content
        difficulty := frontmatter.difficulty
        relatedPosts := frontmatter.relatedPosts
        locale := locale }
    else
      none

/-- Embedding of `getBlogPosts` from `lib/getBlogPosts.ts`: resolves the
locale's posts directory; returns `[]` when it does not exist; otherwise lists
the entries with the `.mdx` extension, parses each one (dropping the records
whose parse failed), and returns the survivors sorted by `sortPostsByDate`. -/
def getBlogPosts (fs : FileSystem) (locale : Locale) : List BlogPostMeta :=
  let postsDirectory := getPostsDirectory locale
  if fs.dirExists postsDirectory then
    let files := (fs.dirFiles postsDirectory).filter
      (fun file => strEndsWith file mdxExt)
    let posts := files.filterMap
      (fun file => parsePostFile fs (postsDirectory ++ [file]) locale)
    sortPostsByDate posts
  else
    []

/-- Modelled from the spec: `postExists(locale, slug)` (its source file
`lib/getBlogPost.ts` is not under `src/`; the property tests exercise it).  Per
spec section 4.4 it is a boolean existence check of `slug`.mdx against the
locale's directory only, with no fallback. -/
def postExists (fs : FileSystem) (locale : Locale) (slug : String) : Bool :=
  fs.fileExists (getPostsDirectory locale ++ [slug ++ mdxExt])

/-- Modelled from the spec: `getBlogPost(slug, locale)` (its source file
`lib/getBlogPost.ts` is not under `src/`; the property tests exercise it).  Per
spec section 4.4 and the tests: when a post with the slug exists in the
requested locale's directory it is parsed and returned with its locale field
set to the requested locale; otherwise, when it exists in the default locale's
directory it is parsed and returned with locale set to the default; when it
exists in neither the result is `null`. -/
def getBlogPost (fs : FileSystem) (slug : String) (locale : Locale) :
    Option BlogPostMeta :=
  if postExists fs locale slug then
    parsePostFile fs (getPostsDirectory locale ++ [slug ++ mdxExt]) locale
  else if postExists fs defaultLocale slug then
    parsePostFile fs (getPostsDirectory defaultLocale ++ [slug ++ mdxExt])
      defaultLocale
  else
    none

/-! ### Concrete snapshot data for the witnesses -/

/-- Title used by the witness frontmatter. -/
def wTitle : String := "English Only Post"

/-- Description used by the witness frontmatter. -/
def wDesc : String := "Test description"

/-- Author used by the witness frontmatter. -/
def wAuthor : String := "Test Author"

/-- Tag used by the witness frontmatter. -/
def wTag : String := "test"

/-- Publication date of the witness post. -/
def wDate1 : String := "2024-01-15"

/-- Earlier publication date for sorting witnesses. -/
def wDate0 : String := "2023-05-02"

/-- Body text of the witness post. -/
def wBody : String := "Some test content."

/-- Slug of the witness post. -/
def wSlug : String := "english-only-post"

/-- File name of the witness post. -/
def wFile : String := "english-only-post.mdx"

/-- File name of a deliberately broken witness file. -/
def wBadFile : String := "broken.mdx"

/-- A slug present in no locale directory. -/
def wMissingSlug : String := "non-existent-anywhere"

/-- Valid witness frontmatter: all required fields present. -/
def fmGood : Frontmatter :=
  { title := some wTitle, description := some wDesc,
    publishedAt := some wDate1, updatedAt := none, author := some wAuthor,
    category := some Category.hiragana, tags := some [wTag],
    featuredImage := none, difficulty := none, relatedPosts := none }

/-- Witness snapshot: the English directory holds one readable valid file and
one file whose read or frontmatter parse throws; no other directory exists. -/
def fsMain : FileSystem :=
  { dirExists := fun d => d == getPostsDirectory Locale.en
    dirFiles := fun d =>
      if d == getPostsDirectory Locale.en then [wFile, wBadFile] else []
    fileExists := fun p => p == getPostsDirectory Locale.en ++ [wFile]
    readFile := fun p =>
      if p == getPostsDirectory Locale.en ++ [wFile] then some (fmGood, wBody)
      else none }

/-- Witness snapshot with no directories at all. -/
def fsNoDir : FileSystem :=
  { dirExists := fun _ => false
    dirFiles := fun _ => []
    fileExists := fun _ => false
    readFile := fun _ => none }

/-- The record that parsing the witness file yields. -/
def postGood : BlogPostMeta :=
  { title := wTitle, description := wDesc, slug := wSlug, publishedAt := wDate1,
    updatedAt := none, author := wAuthor, category := Category.hiragana,
    tags := [wTag], featuredImage := none, readingTime := 1, difficulty := none,
    relatedPosts := none, locale := Locale.en }

/-- A second post record with an earlier publication date. -/
def postEarly : BlogPostMeta :=
  { postGood with slug := wTag, publishedAt := wDate0 }

/-- Snapshot whose single English content file is named exactly `.mdx` and
parses successfully. -/
def fsDotOnly : FileSystem :=
  { dirExists := fun d => d == getPostsDirectory Locale.en
    dirFiles := fun d =>
      if d == getPostsDirectory Locale.en then [mdxExt] else []
    fileExists := fun _ => false
    readFile := fun p =>
      if p == getPostsDirectory Locale.en ++ [mdxExt] then some (fmGood, wBody)
      else none }

/-- The record parsed from the file named exactly `.mdx`. -/
def postDot : BlogPostMeta :=
  { postGood with slug := mdxExt }

/-! ### Basic facts about the sorter -/

theorem sortPostsByDate_eq (posts : List BlogPostMeta) :
    sortPostsByDate posts = List.insertionSort postLE posts := by
  simp [sortPostsByDate, sortPostsByDateRun]

/-- The sort relation is total: for valid dates by totality of the integer
order, and when either date is invalid the comparator value is zero. -/
theorem postLE_total (a b : BlogPostMeta) : postLE a b ∨ postLE b a := by
  unfold postLE postCompare
  rcases jsDateGetTime a.publishedAt with _ | ta <;>
    rcases jsDateGetTime b.publishedAt with _ | tb
  · exact Or.inl (le_refl 0)
  · exact Or.inl (le_refl 0)
  · exact Or.inl (le_refl 0)
  · show tb - ta ≤ 0 ∨ ta - tb ≤ 0
    omega

/-- The sorted output is a permutation of the input. -/
theorem perm_sortPostsByDate (posts : List BlogPostMeta) :
    (sortPostsByDate posts).Perm posts := by
  rw [sortPostsByDate_eq]
  exact List.perm_insertionSort postLE posts

/-- Evaluating the comparator on two records with valid dates. -/
theorem postCompare_eq_of_valid {a b : BlogPostMeta} {ta tb : Int}
    (ha : jsDateGetTime a.publishedAt = some ta)
    (hb : jsDateGetTime b.publishedAt = some tb) :
    postCompare a b = tb - ta := by
  unfold postCompare
  rw [ha, hb]

/-- Restricted to records with valid dates, the sort relation is transitive. -/
theorem postLE_trans_of_valid (a b c : BlogPostMeta)
    (ha : (jsDateGetTime a.publishedAt).isSome = true)
    (hb : (jsDateGetTime b.publishedAt).isSome = true)
    (hc : (jsDateGetTime c.publishedAt).isSome = true)
    (hab : postLE a b) (hbc : postLE b c) : postLE a c := by
  rcases Option.isSome_iff_exists.mp ha with ⟨ta, hta⟩
  rcases Option.isSome_iff_exists.mp hb with ⟨tb, htb⟩
  rcases Option.isSome_iff_exists.mp hc with ⟨tc, htc⟩
  unfold postLE at hab hbc ⊢
  rw [postCompare_eq_of_valid hta htb] at hab
  rw [postCompare_eq_of_valid htb htc] at hbc
  rw [postCompare_eq_of_valid hta htc]
  omega

/-! ### Generic facts about stable insertion sort under a total relation -/

/-- Inserting into a chain preserves the chain, assuming only totality of the
relation (no transitivity is needed for consecutive-pair ordering). -/
theorem chain'_orderedInsert_of_total {α : Type u} {r : α → α → Prop}
    [DecidableRel r] (htot : ∀ a b, r a b ∨ r b a) (x : α) :
    ∀ l : List α, l.Chain' r → (List.orderedInsert r x l).Chain' r
  | [], _ => List.chain'_singleton x
  | y :: ys, hc => by
    rw [List.orderedInsert]
    by_cases hxy : r x y
    · rw [if_pos hxy]
      exact List.chain'_cons.mpr ⟨hxy, hc⟩
    · rw [if_neg hxy]
      have hyx : r y x := (htot x y).resolve_left hxy
      have ih := chain'_orderedInsert_of_total htot x ys (List.chain'_cons'.mp hc).2
      refine List.chain'_cons'.mpr ⟨?_, ih⟩
      intro z hz
      cases ys with
      | nil =>
        simp only [List.orderedInsert, List.head?, Option.mem_def,
          Option.some.injEq] at hz
        exact hz ▸ hyx
      | cons w ws =>
        rw [List.orderedInsert] at hz
        by_cases hxw : r x w
        · rw [if_pos hxw] at hz
          simp only [List.head?, Option.mem_def, Option.some.injEq] at hz
          exact hz ▸ hyx
        · rw [if_neg hxw] at hz
          simp only [List.head?, Option.mem_def, Option.some.injEq] at hz
          exact hz ▸ (List.chain'_cons.mp hc).1

/-- The output of insertion sort under a total relation is a chain: every
consecutive pair is related. -/
theorem chain'_insertionSort_of_total {α : Type u} {r : α → α → Prop}
    [DecidableRel r] (htot : ∀ a b, r a b ∨ r b a) :
    ∀ l : List α, (List.insertionSort r l).Chain' r
  | [] => List.chain'_nil
  | x :: xs =>
    chain'_orderedInsert_of_total htot x _ (chain'_insertionSort_of_total htot xs)

/-- Inserting into a pairwise-ordered list preserves pairwise order, given
totality of the relation and transitivity restricted to a predicate `V` that
holds on the inserted element and the list. -/
theorem pairwise_orderedInsert_of_total {α : Type u} {r : α → α → Prop}
    [DecidableRel r] {V : α → Prop} (htot : ∀ a b, r a b ∨ r b a)
    (htr : ∀ a b c, V a → V b → V c → r a b → r b c → r a c)
    (x : α) (hx : V x) :
    ∀ l : List α, (∀ a ∈ l, V a) → l.Pairwise r →
      (List.orderedInsert r x l).Pairwise r
  | [], _, _ => List.pairwise_singleton r x
  | y :: ys, hV, hp => by
    rw [List.orderedInsert]
    by_cases hxy : r x y
    · rw [if_pos hxy]
      refine List.pairwise_cons.mpr ⟨?_, hp⟩
      intro b hb
      rcases List.mem_cons.mp hb with hby | hbys
      · exact hby ▸ hxy
      · exact htr x y b hx (hV y (List.mem_cons_self y ys))
          (hV b (List.mem_cons_of_mem y hbys)) hxy
          ((List.pairwise_cons.mp hp).1 b hbys)
    · rw [if_neg hxy]
      have hyx : r y x := (htot x y).resolve_left hxy
      have ih := pairwise_orderedInsert_of_total htot htr x hx ys
        (fun a ha => hV a (List.mem_cons_of_mem y ha)) (List.pairwise_cons.mp hp).2
      refine List.pairwise_cons.mpr ⟨?_, ih⟩
      intro b hb
      rcases (List.mem_orderedInsert r).mp hb with hbx | hbys
      · exact hbx ▸ hyx
      · exact (List.pairwise_cons.mp hp).1 b hbys

/-- The output of insertion sort is pairwise ordered, given totality and
transitivity restricted to a predicate `V` holding on the input. -/
theorem pairwise_insertionSort_of_total {α : Type u} {r : α → α → Prop}
    [DecidableRel r] {V : α → Prop} (htot : ∀ a b, r a b ∨ r b a)
    (htr : ∀ a b c, V a → V b → V c → r a b → r b c → r a c) :
    ∀ l : List α, (∀ a ∈ l, V a) → (List.insertionSort r l).Pairwise r
  | [], _ => List.Pairwise.nil
  | x :: xs, hV => by
    rw [List.insertionSort]
    refine pairwise_orderedInsert_of_total htot htr x
      (hV x (List.mem_cons_self x xs)) _ ?_ ?_
    · intro a ha
      exact hV a (List.mem_cons_of_mem x
        ((List.perm_insertionSort r xs).mem_iff.mp ha))
    · exact pairwise_insertionSort_of_total htot htr xs
        (fun a ha => hV a (List.mem_cons_of_mem x ha))

/-- Records satisfying a predicate that forces the relation pairwise form a
pairwise-ordered list after filtering. -/
theorem pairwise_filter_of_forall {α : Type u} {r : α → α → Prop} {p : α → Bool}
    (h : ∀ a b, p a = true → p b = true → r a b) :
    ∀ l : List α, (l.filter p).Pairwise r
  | [] => List.Pairwise.nil
  | x :: xs => by
    by_cases hx : p x = true
    · rw [List.filter_cons_of_pos hx]
      refine List.pairwise_cons.mpr ⟨?_, pairwise_filter_of_forall h xs⟩
      intro b hb
      exact h x b hx (List.of_mem_filter hb)
    · rw [List.filter_cons_of_neg (by simpa using hx)]
      exact pairwise_filter_of_forall h xs

/-! ### Basic facts about the loader -/

/-- A successful parse stamps the requested locale on the record. -/
theorem parsePostFile_locale {fs : FileSystem} {filePath : List String}
    {locale : Locale} {p : BlogPostMeta}
    (h : parsePostFile fs filePath locale = some p) : p.locale = locale := by
  unfold parsePostFile at h
  split at h
  · exact absurd h (by simp)
  · split at h
    · obtain rfl := Option.some.inj h
      rfl
    · exact absurd h (by simp)

/-- A successful parse derives the slug from the filename. -/
theorem parsePostFile_slug {fs : FileSystem} {filePath : List String}
    {locale : Locale} {p : BlogPostMeta}
    (h : parsePostFile fs filePath locale = some p) :
    p.slug = basenameExt filePath mdxExt := by
  unfold parsePostFile at h
  split at h
  · exact absurd h (by simp)
  · split at h
    · obtain rfl := Option.some.inj h
      rfl
    · exact absurd h (by simp)

/-- Basename of a directory-plus-filename path: the extension handling reduces
to the filename alone. -/
theorem basenameExt_append (dir : List String) (file : String) (ext : String) :
    basenameExt (dir ++ [file]) ext =
      if strEndsWith file ext && !(file == ext) then
        String.mk (file.data.take (file.data.length - ext.data.length))
      else file := by
  unfold basenameExt
  rw [List.getLast?_concat]
  rfl

/-- Unfolding of `getBlogPosts` when the locale's directory exists. -/
theorem getBlogPosts_eq_of_dirExists (fs : FileSystem) (locale : Locale)
    (hdir : fs.dirExists (getPostsDirectory locale) = true) :
    getBlogPosts fs locale = sortPostsByDate
        (((fs.dirFiles (getPostsDirectory locale)).filter
            (fun file => strEndsWith file mdxExt)).filterMap
          (fun file => parsePostFile fs (getPostsDirectory locale ++ [file])
            locale)) := by
  simp [getBlogPosts, hdir]

/-- When the locale's directory does not exist the loader returns nothing. -/
theorem getBlogPosts_eq_nil_of_no_dir (fs : FileSystem) (locale : Locale)
    (h : fs.dirExists (getPostsDirectory locale) = false) :
    getBlogPosts fs locale = [] := by
  simp [getBlogPosts, h]

/-- Membership in the loader's output characterizes the parse survivors. -/
theorem getBlogPosts_mem_iff (fs : FileSystem) (locale : Locale)
    (hdir : fs.dirExists (getPostsDirectory locale) = true) (p : BlogPostMeta) :
    p ∈ getBlogPosts fs locale ↔
      ∃ file, file ∈ fs.dirFiles (getPostsDirectory locale) ∧
        strEndsWith file mdxExt = true ∧
        parsePostFile fs (getPostsDirectory locale ++ [file]) locale = some p := by
  rw [getBlogPosts_eq_of_dirExists fs locale hdir,
    (perm_sortPostsByDate _).mem_iff]
  simp only [List.mem_filterMap, List.mem_filter, and_assoc]

/-! ### The claims -/

/-- C1: for every array of `PostMeta` records whose `publishedAt` fields all
parse as valid calendar dates, the output of `sortPostsByDate` is ordered
descending by publication date: for every index `i` with `i + 1` in range, the
date parsed from `sorted[i].publishedAt` is greater than or equal to the date
parsed from `sorted[i+1].publishedAt`. -/
theorem sortPostsByDate_desc (P : List BlogPostMeta)
    (hval : ∀ p ∈ P, (jsDateGetTime p.publishedAt).isSome = true)
    (i : Nat) (hi : i + 1 < (sortPostsByDate P).length) :
    (jsDateGetTime (((sortPostsByDate P).get ⟨i + 1, hi⟩).publishedAt)).getD 0 ≤
      (jsDateGetTime (((sortPostsByDate P).get
        ⟨i, Nat.lt_of_succ_lt hi⟩).publishedAt)).getD 0 := by
  have hchain : (sortPostsByDate P).Chain' postLE := by
    rw [sortPostsByDate_eq]
    exact chain'_insertionSort_of_total postLE_total P
  have hr := List.chain'_iff_get.mp hchain i (by omega)
  set a := (sortPostsByDate P).get ⟨i, Nat.lt_of_succ_lt hi⟩ with hadef
  set b := (sortPostsByDate P).get ⟨i + 1, hi⟩ with hbdef
  have hamem : a ∈ P :=
    (perm_sortPostsByDate P).mem_iff.mp (List.get_mem _ _ _)
  have hbmem : b ∈ P :=
    (perm_sortPostsByDate P).mem_iff.mp (List.get_mem _ _ _)
  rcases Option.isSome_iff_exists.mp (hval a hamem) with ⟨ta, hta⟩
  rcases Option.isSome_iff_exists.mp (hval b hbmem) with ⟨tb, htb⟩
  have hab : postLE a b := hr
  unfold postLE at hab
  rw [postCompare_eq_of_valid hta htb] at hab
  rw [hta, htb]
  simpa using hab

/-- C2: for every array of `PostMeta` records `P`, `sortPostsByDate(P)` is a
permutation of `P`: same length, same multiset of elements (equal multiplicity
of every record), with no record lost, duplicated, or modified. -/
theorem sortPostsByDate_permutation (P : List BlogPostMeta) :
    (sortPostsByDate P).Perm P ∧ (sortPostsByDate P).length = P.length ∧
      ∀ p : BlogPostMeta, (sortPostsByDate P).count p = P.count p :=
  ⟨perm_sortPostsByDate P, (perm_sortPostsByDate P).length_eq,
    fun p => (perm_sortPostsByDate P).count_eq p⟩

/-- C3: `sortPostsByDate` is stable: for every input array, the records whose
`publishedAt` fields parse to any one date value `d` form the same subsequence
(in the same relative order) in the output as in the input. -/
theorem sortPostsByDate_stable (P : List BlogPostMeta) (d : Int) :
    (sortPostsByDate P).filter (sameDateAs d) = P.filter (sameDateAs d) := by
  rw [sortPostsByDate_eq]
  have hrel : ∀ a b : BlogPostMeta,
      sameDateAs d a = true → sameDateAs d b = true → postLE a b := by
    intro a b hda hdb
    unfold sameDateAs at hda hdb
    have hda' := of_decide_eq_true hda
    have hdb' := of_decide_eq_true hdb
    unfold postLE
    rw [postCompare_eq_of_valid hda' hdb']
    omega
  have hpair : (P.filter (sameDateAs d)).Pairwise postLE :=
    pairwise_filter_of_forall hrel P
  have hsub : List.Sublist (P.filter (sameDateAs d)) (List.insertionSort postLE P) :=
    List.sublist_insertionSort hpair (List.filter_sublist P)
  have hself : (P.filter (sameDateAs d)).filter (sameDateAs d) =
      P.filter (sameDateAs d) :=
    List.filter_eq_self.mpr (fun a ha => List.of_mem_filter ha)
  have hsub2 : List.Sublist (P.filter (sameDateAs d))
      ((List.insertionSort postLE P).filter (sameDateAs d)) := by
    have h := hsub.filter (sameDateAs d)
    rwa [hself] at h
  have hlen : ((List.insertionSort postLE P).filter (sameDateAs d)).length =
      (P.filter (sameDateAs d)).length :=
    ((List.perm_insertionSort postLE P).filter (sameDateAs d)).length_eq
  exact (hsub2.eq_of_length hlen.symm).symm

/-- C8: the call does not mutate its argument: after the call the caller's
array holds the original contents in the original order (the sort reorders only
the fresh spread copy, which is the returned value), and empty and
single-element inputs come back unchanged in order. -/
theorem sortPostsByDate_no_mutation (P : List BlogPostMeta) (p : BlogPostMeta) :
    (sortPostsByDateRun P).1 = P ∧
      sortPostsByDate ([] : List BlogPostMeta) = [] ∧
      sortPostsByDate [p] = [p] :=
  ⟨rfl, rfl, rfl⟩

/-- C10: `sortPostsByDate` is idempotent on arrays whose `publishedAt` fields
all parse as valid calendar dates: sorting a second time changes nothing. -/
theorem sortPostsByDate_idempotent (P : List BlogPostMeta)
    (hval : ∀ p ∈ P, (jsDateGetTime p.publishedAt).isSome = true) :
    sortPostsByDate (sortPostsByDate P) = sortPostsByDate P := by
  have hvalSorted : ∀ p ∈ sortPostsByDate P,
      (jsDateGetTime p.publishedAt).isSome = true :=
    fun p hp => hval p ((perm_sortPostsByDate P).mem_iff.mp hp)
  have hpair : (sortPostsByDate P).Pairwise postLE := by
    rw [sortPostsByDate_eq]
    refine pairwise_insertionSort_of_total postLE_total postLE_trans_of_valid P ?_
    intro a ha
    exact hval a ha
  rw [sortPostsByDate_eq (sortPostsByDate P)]
  exact List.Sorted.insertionSort_eq hpair

/-- C5: for every locale whose content directory does not exist in the
filesystem snapshot, `getBlogPosts(locale)` returns an empty array (and, the
embedding being total, raises no error). -/
theorem getBlogPosts_missing_dir (fs : FileSystem) (locale : Locale)
    (h : fs.dirExists (getPostsDirectory locale) = false) :
    getBlogPosts fs locale = [] :=
  getBlogPosts_eq_nil_of_no_dir fs locale h

/-- C6: over a directory mixing valid and invalid content files,
`getBlogPosts` returns exactly the records of the files that parse and pass
validation: the output is a permutation of the per-file parse survivors, and a
record is in the output precisely when some `.mdx` entry of the directory
parses to it; failed files contribute nothing and abort nothing. -/
theorem getBlogPosts_exactly_parsed (fs : FileSystem) (locale : Locale)
    (hdir : fs.dirExists (getPostsDirectory locale) = true) :
    (getBlogPosts fs locale).Perm
        (((fs.dirFiles (getPostsDirectory locale)).filter
            (fun file => strEndsWith file mdxExt)).filterMap
          (fun file => parsePostFile fs (getPostsDirectory locale ++ [file])
            locale)) ∧
      ∀ p : BlogPostMeta, p ∈ getBlogPosts fs locale ↔
        ∃ file, file ∈ fs.dirFiles (getPostsDirectory locale) ∧
          strEndsWith file mdxExt = true ∧
          parsePostFile fs (getPostsDirectory locale ++ [file]) locale = some p := by
  constructor
  · rw [getBlogPosts_eq_of_dirExists fs locale hdir]
    exact perm_sortPostsByDate _
  · exact getBlogPosts_mem_iff fs locale hdir

/-- C7: when the directory exists the loader's output is `sortPostsByDate`
applied to the successfully parsed records, and it is therefore ordered by the
comparator: every consecutive pair of the output satisfies the sort relation
(publication date descending). -/
theorem getBlogPosts_sorted (fs : FileSystem) (locale : Locale)
    (hdir : fs.dirExists (getPostsDirectory locale) = true) :
    getBlogPosts fs locale = sortPostsByDate
        (((fs.dirFiles (getPostsDirectory locale)).filter
            (fun file => strEndsWith file mdxExt)).filterMap
          (fun file => parsePostFile fs (getPostsDirectory locale ++ [file])
            locale)) ∧
      (getBlogPosts fs locale).Chain' postLE := by
  refine ⟨getBlogPosts_eq_of_dirExists fs locale hdir, ?_⟩
  rw [getBlogPosts_eq_of_dirExists fs locale hdir, sortPostsByDate_eq]
  exact chain'_insertionSort_of_total postLE_total _

/-- C9 (amended): every record returned by `getBlogPosts(locale)` has its
locale field equal to the requested locale and its slug derived from its source
file's name by removing the `.mdx` extension — except for a file named exactly
`.mdx`, whose name `path.basename` keeps whole, so its slug stays `.mdx`. -/
theorem getBlogPosts_slug_locale (fs : FileSystem) (locale : Locale)
    (p : BlogPostMeta) (hp : p ∈ getBlogPosts fs locale) :
    p.locale = locale ∧
      ∃ file, file ∈ fs.dirFiles (getPostsDirectory locale) ∧
        strEndsWith file mdxExt = true ∧
        parsePostFile fs (getPostsDirectory locale ++ [file]) locale = some p ∧
        p.slug = (if file = mdxExt then file else removeMdxSuffix file) := by
  have hdir : fs.dirExists (getPostsDirectory locale) = true := by
    by_contra hcon
    rw [getBlogPosts_eq_nil_of_no_dir fs locale (by simpa using hcon)] at hp
    exact absurd hp (List.not_mem_nil p)
  obtain ⟨file, hmem, hend, hparse⟩ :=
    (getBlogPosts_mem_iff fs locale hdir p).mp hp
  refine ⟨parsePostFile_locale hparse, file, hmem, hend, hparse, ?_⟩
  rw [parsePostFile_slug hparse, basenameExt_append, hend]
  unfold removeMdxSuffix
  by_cases hfe : file = mdxExt
  · simp [hfe]
  · simp [hfe]

/-- C4: locale-based retrieval with default-locale fallback.  When a file for
the slug exists in the requested locale's directory, the result is the record
parsed there and any returned record carries the requested locale; otherwise,
when it exists in the default locale's directory, the result is the record
parsed there and any returned record carries the default locale; when it exists
in neither, the result is `null`. -/
theorem getBlogPost_locale_fallback (fs : FileSystem) (slug : String)
    (locale : Locale) :
    (postExists fs locale slug = true →
        getBlogPost fs slug locale =
            parsePostFile fs (getPostsDirectory locale ++ [slug ++ mdxExt])
              locale ∧
          ∀ p : BlogPostMeta, getBlogPost fs slug locale = some p →
            p.locale = locale) ∧
      (postExists fs locale slug = false →
        postExists fs defaultLocale slug = true →
        getBlogPost fs slug locale =
            parsePostFile fs
              (getPostsDirectory defaultLocale ++ [slug ++ mdxExt])
              defaultLocale ∧
          ∀ p : BlogPostMeta, getBlogPost fs slug locale = some p →
            p.locale = defaultLocale) ∧
      (postExists fs locale slug = false →
        postExists fs defaultLocale slug = false →
        getBlogPost fs slug locale = none) := by
  refine ⟨?_, ?_, ?_⟩
  · intro h1
    have heq : getBlogPost fs slug locale =
        parsePostFile fs (getPostsDirectory locale ++ [slug ++ mdxExt])
          locale := by
      simp [getBlogPost, h1]
    exact ⟨heq, fun p hp => parsePostFile_locale (heq ▸ hp)⟩
  · intro h1 h2
    have heq : getBlogPost fs slug locale =
        parsePostFile fs (getPostsDirectory defaultLocale ++ [slug ++ mdxExt])
          defaultLocale := by
      simp [getBlogPost, h1, h2]
    exact ⟨heq, fun p hp => parsePostFile_locale (heq ▸ hp)⟩
  · intro h1 h2
    simp [getBlogPost, h1, h2]

/-- C9 counterexample: in a snapshot whose single `.mdx`-suffixed entry is a
file named exactly `.mdx`, the loader returns a record whose slug is `.mdx`,
not the file name with the extension removed (that would be the empty string):
`path.basename` keeps a name that equals the extension whole. -/
theorem getBlogPosts_slug_counterexample :
    fsDotOnly.dirFiles (getPostsDirectory Locale.en) = [mdxExt] ∧
      getBlogPosts fsDotOnly Locale.en = [postDot] ∧
      postDot.slug = mdxExt ∧
      removeMdxSuffix mdxExt = emptyString ∧
      postDot.slug ≠ removeMdxSuffix mdxExt := by
  refine ⟨rfl, by decide, rfl, by decide, by decide⟩

/-! ### Witnesses: the claims evaluated on the concrete snapshots -/

/-- C1 witness: a concrete two-post array, sorted; hypotheses discharged by
evaluation. -/
theorem sortPostsByDate_desc_witness :
    (jsDateGetTime (((sortPostsByDate [postEarly, postGood]).get
        ⟨1, by decide⟩).publishedAt)).getD 0 ≤
      (jsDateGetTime (((sortPostsByDate [postEarly, postGood]).get
        ⟨0, by decide⟩).publishedAt)).getD 0 :=
  sortPostsByDate_desc [postEarly, postGood] (by decide) 0 (by decide)

/-- C5 witness: a snapshot with no directories yields the empty listing for
Japanese. -/
theorem getBlogPosts_missing_dir_witness :
    getBlogPosts fsNoDir Locale.ja = [] :=
  getBlogPosts_missing_dir fsNoDir Locale.ja (by decide)

/-- C6 witness: in the mixed snapshot the surviving record is returned (the
broken file is skipped). -/
theorem getBlogPosts_exactly_parsed_witness :
    postGood ∈ getBlogPosts fsMain Locale.en :=
  ((getBlogPosts_exactly_parsed fsMain Locale.en (by decide)).2 postGood).mpr
    ⟨wFile, by decide, by decide, by decide⟩

/-- C7 witness: the loader's output on the mixed snapshot is a chain under the
sort relation. -/
theorem getBlogPosts_sorted_witness :
    (getBlogPosts fsMain Locale.en).Chain' postLE :=
  (getBlogPosts_sorted fsMain Locale.en (by decide)).2

/-- C9 witness: the record loaded from the mixed snapshot carries the requested
locale. -/
theorem getBlogPosts_slug_locale_witness :
    postGood.locale = Locale.en :=
  (getBlogPosts_slug_locale fsMain Locale.en postGood (by decide)).1

/-- C4 witness: requesting the English-only slug in Japanese falls back to the
default-locale parse, and a slug absent everywhere yields `null`. -/
theorem getBlogPost_locale_fallback_witness :
    getBlogPost fsMain wSlug Locale.ja =
        parsePostFile fsMain
          (getPostsDirectory defaultLocale ++ [wSlug ++ mdxExt])
          defaultLocale ∧
      getBlogPost fsMain wMissingSlug Locale.ja = none :=
  ⟨((getBlogPost_locale_fallback fsMain wSlug Locale.ja).2.1 (by decide)
      (by decide)).1,
    (getBlogPost_locale_fallback fsMain wMissingSlug Locale.ja).2.2 (by decide)
      (by decide)⟩

/-- C10 witness: sorting the concrete two-post array twice equals sorting it
once. -/
theorem sortPostsByDate_idempotent_witness :
    sortPostsByDate (sortPostsByDate [postGood, postEarly]) =
      sortPostsByDate [postGood, postEarly] :=
  sortPostsByDate_idempotent [postGood, postEarly] (by decide)

end KanaDojo
